import Mathlib

/-!
A shallow embedding of the connector / queue / scheduling subsystem of the
gifview-monorepo server, together with proofs about it.

Covered source units:
* the connector registry type parser (`parseConnectorType`),
* the post repository deduplication helpers (`checkPostExists`,
  `createPostIfNotExists`),
* the RSS connector per-item pipeline (`buildPostData` and the queue handler),
* the GIF search module (`parseTopicLine`, `createSearchFromArea`,
  `computeGifSearches`, `getGif`),
* the post-enrichment pipeline (`getTopicAndGif`, `enrichSinglePost`,
  `saveEnrichmentResult`, the enrichment queue handler, `suggestInterests`,
  `getInterestsForDepth`),
* the enrichment completion tracker (the `onItemsChange` hook), and
* the sync scheduler due-check (`schedulerTick`).

External collaborators (the SQL database, HTTP clients, the AI text service,
`JSON.parse`) are modelled as explicit oracle parameters; the control flow and
the data transformations are translated from the TypeScript source.

JavaScript strings are modelled as `List Char` so that every operation the
source performs on them (split on a separator character, trim, head tests)
is an executable structural recursion.
-/

namespace Gifview

/-- A JavaScript string, modelled as its list of characters. -/
abbrev Str : Type := List Char

/-- Character list of a Lean string literal, used to write `Str` constants. -/
def str (s : String) : Str := s.data

/-- Whitespace as removed by JavaScript `String.prototype.trim`
(the whitespace classes that occur in this code base). -/
def isJsWhitespace (c : Char) : Bool :=
  c = ' ' || c = '\n' || c = '\t' || c = '\r'

/-- JavaScript `String.prototype.trim`: remove leading and trailing whitespace. -/
def jsTrim (s : Str) : Str :=
  ((s.dropWhile isJsWhitespace).reverse.dropWhile isJsWhitespace).reverse

/-- JavaScript `String.prototype.split` with a one-character separator, which is
the only form the source uses (`"\n"`, `":"`, `","`).  `""` splits to `[""]`,
a trailing separator yields a trailing empty part, exactly as in JavaScript. -/
def jsSplit (sep : Char) : Str → List Str
  | [] => [[]]
  | c :: cs =>
    let rest := jsSplit sep cs
    if c = sep then [] :: rest
    else
      match rest with
      | [] => [c :: []]
      | r :: rs => (c :: r) :: rs

/-- JavaScript truthiness of a string value: the empty string is falsy. -/
def strTruthyS (s : Str) : Bool := !(s.isEmpty)

/-- JavaScript truthiness of an optional string parameter: `undefined`/`null`
and the empty string are all falsy. -/
def strTruthy : Option Str → Bool
  | none => false
  | some s => strTruthyS s

-- ===========================================================
-- Connector registry: `parseConnectorType`  (connector.registry)
-- ===========================================================

/-- The result of the JavaScript builtin `JSON.parse` followed by
`Object.keys`, on inputs whose first character is an opening brace: `none`
models a parse exception, `some keys` the key list of the parsed object in
insertion order (every valid JSON document that starts with a brace is an
object).  `JSON.parse` is a runtime builtin and is treated as an external
collaborator. -/
def JsonKeysFn : Type := Str → Option (List Str)

/-- `parseConnectorType` from `connector.registry`: a null or empty input
yields null; an input that does not start with an opening brace is returned
unchanged as the bare type string; otherwise the input is JSON-parsed and the
first key of the object is returned, with null on a parse failure or when the
object has no keys (`keys.length > 0 ? keys[0] : null`). -/
def parseConnectorType (jsonKeys : JsonKeysFn) (connectorTypeJson : Option Str) :
    Option Str :=
  match connectorTypeJson with
  | none => none
  | some s =>
    if s.isEmpty then none
    else if s.head? = some '\x7b' then
      match jsonKeys s with
      | none => none
      | some [] => none
      | some (k :: _) => some k
    else some s

-- ===========================================================
-- Post repository  (services/postService.ts)
-- ===========================================================

/-- One row of the `posts` table; only the columns this subsystem reads or
writes are modelled.  `source_key` and `source_link` are nullable text
columns. -/
structure PostRow where
  title : Str
  description : Str
  content : Str
  sourceKey : Option Str
  sourceLink : Option Str
  connectorId : Str
deriving DecidableEq, Repr

/-- `checkPostExists(sourceLink?, sourceKey?)` from `postService`.  The first
component is the boolean result, the second records whether the store was
queried at all (`findFirst` issued).  When both arguments are falsy the
function returns `false` without querying; otherwise one equality condition is
pushed per truthy argument and the query is the OR of the pushed conditions
(SQL `NULL` never compares equal, hence the `Option` equality against
`some`). -/
def checkPostExists (posts : List PostRow) (sourceLink sourceKey : Option Str) :
    Bool × Bool :=
  if !strTruthy sourceLink && !strTruthy sourceKey then (false, false)
  else
    (posts.any fun p =>
      (strTruthy sourceLink && (p.sourceLink == sourceLink)) ||
      (strTruthy sourceKey && (p.sourceKey == sourceKey)), true)

/-- `createPostIfNotExists` from `postService`: an insert with
`onConflictDoNothing`.  The `posts` table has no unique constraint on
`source_link` or `source_key` (only a non-unique index on `source_key`), and
the primary key is a fresh random uuid, so the conflict clause never fires and
the insert always appends the row. -/
def createPostIfNotExists (posts : List PostRow) (data : PostRow) : List PostRow :=
  posts ++ [data]

-- sanity checks on the string model
example : jsSplit ':' (str "Brand: x") = [str "Brand", str " x"] := by decide
example : jsTrim (str "  a b ") = str "a b" := by decide
example : jsSplit ',' (str "x, y,") = [str "x", str " y", str ""] := by decide
example : parseConnectorType (fun _ => none) (some (str "spotify")) = some (str "spotify") := by
  decide

-- ===========================================================
-- C9: type parsing
-- ===========================================================

/-- C9: for every input, `parseConnectorType` returns null for a null or empty
input; returns the string itself when the input is a bare string not starting
with an opening brace; returns the single top-level key when the input is a
JSON object with exactly one key; and returns null for invalid JSON or an
empty JSON object. -/
theorem C9_type_parsing (jsonKeys : JsonKeysFn) :
    parseConnectorType jsonKeys none = none ∧
    parseConnectorType jsonKeys (some []) = none ∧
    (∀ s : Str, s ≠ [] → s.head? ≠ some '\x7b' →
      parseConnectorType jsonKeys (some s) = some s) ∧
    (∀ s : Str, ∀ k : Str, s.head? = some '\x7b' → jsonKeys s = some [k] →
      parseConnectorType jsonKeys (some s) = some k) ∧
    (∀ s : Str, s.head? = some '\x7b' → jsonKeys s = none →
      parseConnectorType jsonKeys (some s) = none) ∧
    (∀ s : Str, s.head? = some '\x7b' → jsonKeys s = some [] →
      parseConnectorType jsonKeys (some s) = none) := by
  refine ⟨rfl, rfl, ?_, ?_, ?_, ?_⟩
  · intro s hs hh
    simp [parseConnectorType, List.isEmpty_iff, hs, hh]
  · intro s k hh hk
    have hs : s ≠ [] := by
      intro h; subst h; simp at hh
    simp [parseConnectorType, List.isEmpty_iff, hs, hh, hk]
  · intro s hh hk
    have hs : s ≠ [] := by
      intro h; subst h; simp at hh
    simp [parseConnectorType, List.isEmpty_iff, hs, hh, hk]
  · intro s hh hk
    have hs : s ≠ [] := by
      intro h; subst h; simp at hh
    simp [parseConnectorType, List.isEmpty_iff, hs, hh, hk]

/-- A concrete `JSON.parse ∘ Object.keys` table used to instantiate the C9
theorem on concrete inputs. -/
def demoJsonKeys : JsonKeysFn := fun s =>
  if s = str "\x7b\"RssJsonLd\":\x7b\"url\":\"x\"\x7d\x7d" then some [str "RssJsonLd"]
  else if s = str "\x7b\x7d" then some []
  else none

/-- Witness for C9: the theorem applied at concrete inputs of each shape. -/
theorem C9_type_parsing_witness :
    parseConnectorType demoJsonKeys (some (str "spotify")) = some (str "spotify") ∧
    parseConnectorType demoJsonKeys
      (some (str "\x7b\"RssJsonLd\":\x7b\"url\":\"x\"\x7d\x7d")) = some (str "RssJsonLd") ∧
    parseConnectorType demoJsonKeys (some (str "\x7bnot json")) = none ∧
    parseConnectorType demoJsonKeys (some (str "\x7b\x7d")) = none :=
  ⟨(C9_type_parsing demoJsonKeys).2.2.1 (str "spotify") (by decide) (by decide),
   (C9_type_parsing demoJsonKeys).2.2.2.1 _ (str "RssJsonLd") (by decide) (by decide),
   (C9_type_parsing demoJsonKeys).2.2.2.2.1 (str "\x7bnot json") (by decide) (by decide),
   (C9_type_parsing demoJsonKeys).2.2.2.2.2 (str "\x7b\x7d") (by decide) (by decide)⟩

-- ===========================================================
-- C10: duplicate-check semantics
-- ===========================================================

/-- C10: `checkPostExists` returns false without querying the store when both
arguments are absent (falsy); otherwise it queries and returns true iff some
stored post matches at least one of the provided fields — a disjunction over
`sourceLink` and `sourceKey`, not a conjunction on the pair — so a candidate
sharing only the `sourceKey` of an existing post (with a different
`sourceLink`) is already reported as existing. -/
theorem C10_duplicate_check (posts : List PostRow) (sourceLink sourceKey : Option Str) :
    (strTruthy sourceLink = false → strTruthy sourceKey = false →
      checkPostExists posts sourceLink sourceKey = (false, false)) ∧
    (strTruthy sourceLink = true ∨ strTruthy sourceKey = true →
      checkPostExists posts sourceLink sourceKey =
        (posts.any fun p =>
          (strTruthy sourceLink && (p.sourceLink == sourceLink)) ||
          (strTruthy sourceKey && (p.sourceKey == sourceKey)), true)) ∧
    (∀ p ∈ posts, ∀ l k : Str, l ≠ [] → k ≠ [] → p.sourceKey = some k →
      (checkPostExists posts (some l) (some k)).1 = true) := by
  refine ⟨?_, ?_, ?_⟩
  · intro hl hk
    simp [checkPostExists, hl, hk]
  · intro h
    have : (!strTruthy sourceLink && !strTruthy sourceKey) = false := by
      rcases h with h | h <;> simp [h]
    simp [checkPostExists, this]
  · intro p hp l k hl hk hpk
    have htl : strTruthy (some l) = true := by
      simp [strTruthy, strTruthyS, List.isEmpty_iff, hl]
    have htk : strTruthy (some k) = true := by
      simp [strTruthy, strTruthyS, List.isEmpty_iff, hk]
    simp only [checkPostExists, htl, htk, Bool.not_true, Bool.false_and, if_neg,
      Bool.and_self, Bool.false_eq_true, not_false_iff]
    simp only [List.any_eq_true]
    exact ⟨p, hp, by simp [htl, htk, hpk]⟩

/-- A one-row post store used to instantiate C10 concretely. -/
def demoPosts : List PostRow :=
  [{ title := str "t", description := str "d", content := str "c",
     sourceKey := some (str "key1"), sourceLink := some (str "link1"),
     connectorId := str "conn1" }]

/-- Witness for C10: a candidate that shares only the `sourceKey` of the
stored post (its `sourceLink` differs) is reported as existing. -/
theorem C10_duplicate_check_witness :
    (checkPostExists demoPosts (some (str "other-link")) (some (str "key1"))).1 = true :=
  (C10_duplicate_check demoPosts (some (str "other-link")) (some (str "key1"))).2.2
    { title := str "t", description := str "d", content := str "c",
      sourceKey := some (str "key1"), sourceLink := some (str "link1"),
      connectorId := str "conn1" } (by decide) (str "other-link") (str "key1")
    (by decide) (by decide) (by decide)

-- ===========================================================
-- Completion tracking (post-enrichment.service `onItemsChange` hook)
-- ===========================================================

/-- The ephemeral completion tracker armed by `enrichPostsList`:
`queuedCount` is the size of the just-submitted batch and
`startExecutionCount` the queue's cumulative execution count at arming time
(both JavaScript numbers). -/
structure ActiveEnrichmentJob where
  queuedCount : Int
  startExecutionCount : Int
deriving DecidableEq, Repr

/-- The externally observable actions of the tracker inside the
`onItemsChange` hook: clearing the armed tracker and invoking the completion
callback with `(queuedCount, processedForThisJob)`. -/
inductive TrackerAction where
  | clear : TrackerAction
  | invoke (queued processed : Int) : TrackerAction
deriving DecidableEq, Repr

/-- One firing of the queue's `onItemsChange` hook, observing the queue state
`(size, executionCount)`.  When a tracker is armed, the size is zero and
`executionCount - startExecutionCount > 0`, the tracker is cleared first and
the callback invoked second (the source nulls `activeEnrichmentJob` before
calling `job.onComplete`); otherwise nothing happens. -/
def onItemsChange (job : Option ActiveEnrichmentJob) (size : Nat)
    (executionCount : Int) : Option ActiveEnrichmentJob × List TrackerAction :=
  match job with
  | none => (none, [])
  | some j =>
    if size = 0 then
      let processedForThisJob := executionCount - j.startExecutionCount
      if 0 < processedForThisJob then
        (none, [TrackerAction.clear, TrackerAction.invoke j.queuedCount processedForThisJob])
      else (some j, [])
    else (some j, [])

/-- Fold the `onItemsChange` hook over a sequence of observed queue states
`(size, executionCount)`, collecting the tracker actions in order. -/
def runItemsChange (job : Option ActiveEnrichmentJob) (events : List (Nat × Int)) :
    Option ActiveEnrichmentJob × List TrackerAction :=
  match events with
  | [] => (job, [])
  | ev :: rest =>
    let step := onItemsChange job ev.1 ev.2
    let restRun := runItemsChange step.1 rest
    (restRun.1, step.2 ++ restRun.2)

/-- The `onItemsChange` events the queue emits while a batch of `K` items is
added after arming: sizes `1..K`, execution count unchanged at `E0`. -/
def addEvents (K : Nat) (E0 : Int) : List (Nat × Int) :=
  (List.range K).map fun i => (i + 1, E0)

/-- The `onItemsChange` events the queue emits while draining `k` items that
were queued on top of execution count `e`: after the i-th item is taken for
execution the size is `k - i` and the execution count `e + i`. -/
def drainEvents : Nat → Int → List (Nat × Int)
  | 0, _ => []
  | k + 1, e => (k, e + 1) :: drainEvents k (e + 1)

theorem runItemsChange_none (events : List (Nat × Int)) :
    runItemsChange none events = (none, []) := by
  induction events with
  | nil => rfl
  | cons ev rest ih => simp [runItemsChange, onItemsChange, ih]

theorem runItemsChange_noop (j : ActiveEnrichmentJob) (events : List (Nat × Int))
    (h : ∀ ev ∈ events, ev.1 ≠ 0 ∨ ev.2 ≤ j.startExecutionCount) :
    runItemsChange (some j) events = (some j, []) := by
  induction events with
  | nil => rfl
  | cons ev rest ih =>
    have hev := h ev (by simp)
    have hstep : onItemsChange (some j) ev.1 ev.2 = (some j, []) := by
      rcases hev with hs | he
      · simp [onItemsChange, hs]
      · rcases Nat.eq_zero_or_pos ev.1 with h0 | hpos
        · simp [onItemsChange, h0]
          omega
        · simp [onItemsChange, Nat.pos_iff_ne_zero.mp hpos]
    simp [runItemsChange, hstep, ih fun e he => h e (by simp [he])]

theorem runItemsChange_drain (j : ActiveEnrichmentJob) (k : Nat) (e : Int)
    (hk : 0 < k) (hfire : j.startExecutionCount < e + k) :
    runItemsChange (some j) (drainEvents k e) =
      (none, [TrackerAction.clear,
              TrackerAction.invoke j.queuedCount (e + k - j.startExecutionCount)]) := by
  induction k generalizing e with
  | zero => omega
  | succ k ih =>
    rcases Nat.eq_zero_or_pos k with h0 | hpos
    · subst h0
      have hlt : 0 < e + 1 - j.startExecutionCount := by omega
      simp [drainEvents, runItemsChange, onItemsChange, hlt, runItemsChange_none]
    · have hne : k ≠ 0 := Nat.pos_iff_ne_zero.mp hpos
      have hstep : onItemsChange (some j) k (e + 1) = (some j, []) := by
        simp [onItemsChange, hne]
      have hrec := ih (e + 1) hpos (by push_cast at hfire ⊢; omega)
      have harg : e + 1 + (k : Int) = e + (k + 1 : Nat) := by push_cast; ring
      simp [drainEvents, runItemsChange, hstep, hrec, harg]

-- ===========================================================
-- C1: completion tracking
-- ===========================================================

/-- C1: arming a tracker for a batch of `K > 0` items at execution count `E0`
and then watching the queue accept and drain exactly those `K` items to size
zero clears the tracker and invokes the callback exactly once, in that order,
with `processed = K`; under any event sequence in which the execution count
never moves past `E0` (zero items drained) the callback is never invoked. -/
theorem C1_completion_tracking (K : Nat) (E0 : Int) (hK : 0 < K) :
    runItemsChange (some ⟨(K : Int), E0⟩) (addEvents K E0 ++ drainEvents K E0) =
      (none, [TrackerAction.clear, TrackerAction.invoke (K : Int) (K : Int)]) ∧
    (∀ events : List (Nat × Int), (∀ ev ∈ events, ev.2 = E0) →
      ∀ q p : Int,
        TrackerAction.invoke q p ∉ (runItemsChange (some ⟨(K : Int), E0⟩) events).2) := by
  constructor
  · have hadd : runItemsChange (some ⟨(K : Int), E0⟩) (addEvents K E0) =
        (some ⟨(K : Int), E0⟩, []) := by
      apply runItemsChange_noop
      intro ev hev
      simp only [addEvents, List.mem_map, List.mem_range] at hev
      obtain ⟨i, _, rfl⟩ := hev
      exact Or.inl (by omega)
    have hdrain := runItemsChange_drain ⟨(K : Int), E0⟩ K E0 hK (by simp; omega)
    have harg : E0 + (K : Int) - E0 = (K : Int) := by ring
    rw [show addEvents K E0 ++ drainEvents K E0 = addEvents K E0 ++ drainEvents K E0 from rfl]
    have : ∀ l₁ l₂ : List (Nat × Int), ∀ job,
        runItemsChange job (l₁ ++ l₂) =
          ((runItemsChange (runItemsChange job l₁).1 l₂).1,
           (runItemsChange job l₁).2 ++ (runItemsChange (runItemsChange job l₁).1 l₂).2) := by
      intro l₁
      induction l₁ with
      | nil => intro l₂ job; simp [runItemsChange]
      | cons ev rest ih => intro l₂ job; simp [runItemsChange, ih, List.append_assoc]
    rw [this, hadd]
    simp only at hdrain ⊢
    rw [hdrain, harg]
    simp
  · intro events hev q p
    have := runItemsChange_noop ⟨(K : Int), E0⟩ events
      (fun ev h => Or.inr (le_of_eq (hev ev h)))
    simp [this]

/-- Witness for C1: the theorem instantiated with a batch of 2 items armed at
execution count 5. -/
theorem C1_completion_tracking_witness :
    runItemsChange (some ⟨(2 : Int), (5 : Int)⟩) (addEvents 2 5 ++ drainEvents 2 5) =
      (none, [TrackerAction.clear, TrackerAction.invoke 2 2]) :=
  (C1_completion_tracking 2 5 (by decide)).1

-- ===========================================================
-- RSS connector per-item pipeline  (modules/rss/rss.handler.ts)
-- ===========================================================

/-- One item of a parsed RSS feed, as consumed by the queue handler (only the
fields the handler reads). -/
structure RssItem where
  title : Str
  description : Str
  link : Str
deriving DecidableEq, Repr

/-- The external content-extraction collaborator
`extractContentFromHTML(url, selector)`: `none` models both a thrown error
(caught inside `buildPostData`) and a `null` extraction result.  It is a
function of the url and selector, modelling one fixed upstream ("the same
upstream data" across two sync runs). -/
def ContentFn : Type := Str → Str → Option Str

/-- `buildPostData` from the RSS handler: return `none` when the post already
exists (`checkPostExists(url, url)` — the RSS link is used as both
`sourceLink` and `sourceKey`) or when content extraction yields nothing
(errors are caught and also yield `none`; an empty extracted string is falsy
and treated as no content); otherwise build the post record, with
`sourceKey = sourceLink = post.link`. -/
def buildPostData (content : ContentFn) (db : List PostRow) (post : RssItem)
    (connectorSelector connectorId : Str) : Option PostRow :=
  let url := post.link
  if (checkPostExists db (some url) (some url)).1 then none
  else
    match content url connectorSelector with
    | none => none
    | some c =>
      if c.isEmpty then none
      else
        some
          { title := post.title, description := post.description, content := c,
            sourceKey := some post.link, sourceLink := some post.link,
            connectorId := connectorId }

/-- The RSS queue per-item handler: build the post data and, when it is
non-null, insert it via `createPostIfNotExists`; a null result or a caught
error leaves the store unchanged. -/
def rssQueueHandler (content : ContentFn) (connectorSelector connectorId : Str)
    (db : List PostRow) (item : RssItem) : List PostRow :=
  match buildPostData content db item connectorSelector connectorId with
  | none => db
  | some postData => createPostIfNotExists db postData

/-- Draining one sync's queued items: the queue processes items one at a time
in FIFO order, each item's handler completing before the next starts. -/
def runRssSync (content : ContentFn) (connectorSelector connectorId : Str)
    (db : List PostRow) (items : List RssItem) : List PostRow :=
  items.foldl (rssQueueHandler content connectorSelector connectorId) db

/-- No two stored posts share their `(sourceLink, sourceKey)` pair. -/
def distinctSourcePairs (db : List PostRow) : Prop :=
  db.Pairwise fun p q => ¬(p.sourceLink = q.sourceLink ∧ p.sourceKey = q.sourceKey)

theorem checkPostExists_same_true_iff (db : List PostRow) (u : Str) (hu : u ≠ []) :
    (checkPostExists db (some u) (some u)).1 = true ↔
      ∃ p ∈ db, p.sourceLink = some u ∨ p.sourceKey = some u := by
  have ht : strTruthy (some u) = true := by
    simp [strTruthy, strTruthyS, List.isEmpty_iff, hu]
  simp [checkPostExists, ht, List.any_eq_true]

theorem rssQueueHandler_prefix (content : ContentFn) (cs cid : Str)
    (db : List PostRow) (item : RssItem) :
    ∃ t, rssQueueHandler content cs cid db item = db ++ t := by
  unfold rssQueueHandler
  cases buildPostData content db item cs cid with
  | none => exact ⟨[], by simp⟩
  | some pd => exact ⟨[pd], rfl⟩

theorem runRssSync_prefix (content : ContentFn) (cs cid : Str)
    (items : List RssItem) (db : List PostRow) :
    ∃ t, runRssSync content cs cid db items = db ++ t := by
  induction items generalizing db with
  | nil => exact ⟨[], by simp [runRssSync]⟩
  | cons it its ih =>
    obtain ⟨t0, h0⟩ := rssQueueHandler_prefix content cs cid db it
    obtain ⟨t1, h1⟩ := ih (rssQueueHandler content cs cid db it)
    exact ⟨t0 ++ t1, by simp [runRssSync] at h1 ⊢; rw [h1, h0, List.append_assoc]⟩

theorem mem_runRssSync (content : ContentFn) (cs cid : Str)
    (items : List RssItem) (db : List PostRow) (p : PostRow) (hp : p ∈ db) :
    p ∈ runRssSync content cs cid db items := by
  obtain ⟨t, ht⟩ := runRssSync_prefix content cs cid items db
  rw [ht]; exact List.mem_append_left _ hp

/-- An item whose post record is already present (by link or key) or whose
content extraction is empty is a no-op for the store. -/
theorem rssQueueHandler_stable (content : ContentFn) (cs cid : Str)
    (db : List PostRow) (it : RssItem) (hu : it.link ≠ [])
    (h : (∃ p ∈ db, p.sourceLink = some it.link ∨ p.sourceKey = some it.link) ∨
         content it.link cs = none ∨ content it.link cs = some []) :
    rssQueueHandler content cs cid db it = db := by
  unfold rssQueueHandler buildPostData
  rcases h with h | h | h
  · rw [if_pos ((checkPostExists_same_true_iff db it.link hu).2 h)]
  · cases hc : (checkPostExists db (some it.link) (some it.link)).1 <;> simp [hc, h]
  · cases hc : (checkPostExists db (some it.link) (some it.link)).1 <;>
      simp [hc, h, List.isEmpty_iff]

theorem runRssSync_congr_fixed (content : ContentFn) (cs cid : Str)
    (db : List PostRow) (items : List RssItem)
    (h : ∀ it ∈ items, rssQueueHandler content cs cid db it = db) :
    runRssSync content cs cid db items = db := by
  induction items with
  | nil => rfl
  | cons it its ih =>
    have hh := h it (by simp)
    simp only [runRssSync, List.foldl_cons, hh]
    exact ih fun x hx => h x (by simp [hx])

/-- After one full sync run every one of its items has become a no-op. -/
theorem runRssSync_stable (content : ContentFn) (cs cid : Str)
    (items : List RssItem) (db : List PostRow)
    (hlink : ∀ it ∈ items, it.link ≠ []) :
    ∀ it ∈ items,
      rssQueueHandler content cs cid (runRssSync content cs cid db items) it =
        runRssSync content cs cid db items := by
  induction items generalizing db with
  | nil => intro it h; exact absurd h (List.not_mem_nil it)
  | cons hd tl ih =>
    intro it hit
    have hrun : runRssSync content cs cid db (hd :: tl) =
        runRssSync content cs cid (rssQueueHandler content cs cid db hd) tl := by
      simp [runRssSync]
    rcases List.mem_cons.1 hit with rfl | hmem
    · -- the head item: after its own processing it is present or permanently skipped
      have hu : it.link ≠ [] := hlink it (by simp)
      rw [hrun]
      apply rssQueueHandler_stable content cs cid _ it hu
      by_cases hex : (checkPostExists db (some it.link) (some it.link)).1 = true
      · -- it already existed in db; db is a prefix of the final store
        obtain ⟨p, hp, hpor⟩ := (checkPostExists_same_true_iff db it.link hu).1 hex
        exact Or.inl ⟨p,
          mem_runRssSync content cs cid tl _ p
            (by obtain ⟨t, ht⟩ := rssQueueHandler_prefix content cs cid db it
                rw [ht]; exact List.mem_append_left _ hp), hpor⟩
      · cases hc : content it.link cs with
        | none => exact Or.inr (Or.inl rfl)
        | some c =>
          cases hce : c.isEmpty with
          | true =>
            exact Or.inr (Or.inr (by rw [List.isEmpty_iff.1 hce]))
          | false =>
            -- the item was inserted; the inserted row survives into the final store
            left
            refine ⟨{ title := it.title, description := it.description, content := c,
                      sourceKey := some it.link, sourceLink := some it.link,
                      connectorId := cid }, ?_, Or.inl rfl⟩
            apply mem_runRssSync content cs cid tl
            unfold rssQueueHandler buildPostData
            rw [if_neg (by simp [hex]), hc]
            simp [hce, createPostIfNotExists]
    · rw [hrun]
      exact ih (rssQueueHandler content cs cid db hd)
        (fun x hx => hlink x (by simp [hx])) it hmem

/-- One handler step preserves distinctness of `(sourceLink, sourceKey)`
pairs, because an insert only happens after the disjunctive existence check
came back negative. -/
theorem rssQueueHandler_distinct (content : ContentFn) (cs cid : Str)
    (db : List PostRow) (it : RssItem) (hu : it.link ≠ [])
    (hd : distinctSourcePairs db) :
    distinctSourcePairs (rssQueueHandler content cs cid db it) := by
  unfold rssQueueHandler buildPostData
  cases hex : (checkPostExists db (some it.link) (some it.link)).1 with
  | true => simpa [hex] using hd
  | false =>
    cases hc : content it.link cs with
    | none => simpa [hex, hc] using hd
    | some c =>
      cases hce : c.isEmpty with
      | true => simpa [hex, hc, hce] using hd
      | false =>
        simp only [hex, hc, hce, Bool.false_eq_true, if_neg, not_false_iff,
          createPostIfNotExists]
        have hnone : ∀ p ∈ db, ¬(p.sourceLink = some it.link ∨ p.sourceKey = some it.link) := by
          intro p hp hor
          have : (checkPostExists db (some it.link) (some it.link)).1 = true :=
            (checkPostExists_same_true_iff db it.link hu).2 ⟨p, hp, hor⟩
          rw [hex] at this; exact Bool.false_ne_true this
        unfold distinctSourcePairs
        rw [List.pairwise_append]
        refine ⟨hd, List.pairwise_singleton _ _, ?_⟩
        intro p hp q hq
        rcases List.mem_singleton.1 hq with rfl
        intro ⟨hl, _⟩
        exact hnone p hp (Or.inl (by simpa using hl))

-- ===========================================================
-- C2: dedup idempotence
-- ===========================================================

/-- C2: running the RSS connector's sync twice over the same upstream data,
draining the queue after each run, leaves the store of the first run
unchanged, and the store never acquires two posts with the same
`(sourceLink, sourceKey)` pair: each item's handler checks existence (a
disjunction over link and key) before inserting.  Items are assumed to carry
a non-empty link, as every well-formed RSS item does (with an empty link the
existence check is skipped as falsy, but content extraction from an empty url
always fails in the source). -/
theorem C2_dedup_idempotence (content : ContentFn) (connectorSelector connectorId : Str)
    (db : List PostRow) (items : List RssItem)
    (hlink : ∀ it ∈ items, it.link ≠ []) :
    runRssSync content connectorSelector connectorId
        (runRssSync content connectorSelector connectorId db items) items =
      runRssSync content connectorSelector connectorId db items ∧
    (distinctSourcePairs db →
      distinctSourcePairs (runRssSync content connectorSelector connectorId db items)) := by
  constructor
  · exact runRssSync_congr_fixed content connectorSelector connectorId _ items
      (runRssSync_stable content connectorSelector connectorId items db hlink)
  · intro hd
    induction items generalizing db with
    | nil => simpa [runRssSync] using hd
    | cons it its ih =>
      simp only [runRssSync, List.foldl_cons]
      exact ih _ (fun x hx => hlink x (by simp [hx]))
        (rssQueueHandler_distinct content connectorSelector connectorId db it
          (hlink it (by simp)) hd)

/-- A content oracle that extracts a fixed body for every url. -/
def demoContent : ContentFn := fun _ _ => some (str "body")

/-- Witness for C2: two RSS items with the same link, synced twice starting
from an empty store. -/
theorem C2_dedup_idempotence_witness :
    runRssSync demoContent (str "") (str "c1")
        (runRssSync demoContent (str "") (str "c1") []
          [⟨str "t1", str "d1", str "l1"⟩, ⟨str "t2", str "d2", str "l1"⟩])
        [⟨str "t1", str "d1", str "l1"⟩, ⟨str "t2", str "d2", str "l1"⟩] =
      runRssSync demoContent (str "") (str "c1") []
        [⟨str "t1", str "d1", str "l1"⟩, ⟨str "t2", str "d2", str "l1"⟩] ∧
    distinctSourcePairs
      (runRssSync demoContent (str "") (str "c1") []
        [⟨str "t1", str "d1", str "l1"⟩, ⟨str "t2", str "d2", str "l1"⟩]) := by
  have h := C2_dedup_idempotence demoContent (str "") (str "c1") []
    [⟨str "t1", str "d1", str "l1"⟩, ⟨str "t2", str "d2", str "l1"⟩]
    (by intro it hit; fin_cases hit <;> decide)
  exact ⟨h.1, h.2 (List.Pairwise.nil)⟩

-- ===========================================================
-- GIF module  (modules/gif/gif.constants.ts, gif.service.ts)
-- ===========================================================

/-- One planned provider search: provider name, keyword and the content area
the keyword came from.  The TypeScript enum `GifSearchProviders` is a string
enum with values "Tenor" and "Giphy", and the area is an unchecked cast of
the parsed line prefix, so both are modelled as strings. -/
structure GifSearch where
  provider : Str
  keyword : Str
  area : Str
deriving DecidableEq, Repr

/-- The result of `getGif`: url and provider, both empty when no GIF was
found (the source casts `""` to the provider enum for the default). -/
structure GifResult where
  url : Str
  provider : Str
deriving DecidableEq, Repr

/-- `SEARCH_MAPPINGS` from `gif.constants.ts`: the fixed priority/provider
table keyed by content area.  A record lookup with an unknown key yields
`undefined`, modelled as `none`. -/
def SEARCH_MAPPINGS (area : Str) : Option (Nat × Str) :=
  if area = str "Brand" then some (1, str "Tenor")
  else if area = str "Product" then some (2, str "Tenor")
  else if area = str "Event" then some (3, str "Giphy")
  else if area = str "Action" then some (4, str "Giphy")
  else if area = str "Sports team" then some (5, str "Giphy")
  else if area = str "Celebrity" then some (6, str "Tenor")
  else if area = str "Location" then some (7, str "Tenor")
  else if area = str "Emotion" then some (8, str "Giphy")
  else if area = str "Weather" then some (9, str "Giphy")
  else if area = str "Other" then some (10, str "Tenor")
  else none

/-- `parseTopicLine`: split the line on the first colon into trimmed parts;
the first part is the area, the second (when present) is split on commas into
trimmed, non-empty keywords. -/
def parseTopicLine (line : Str) : Str × List Str :=
  let parts := (jsSplit ':' line).map jsTrim
  let area := parts.headD []
  let keywords :=
    match parts[1]? with
    | none => []
    | some keywordsStr =>
      ((jsSplit ',' keywordsStr).map jsTrim).filter fun k => k.length > 0
  (area, keywords)

/-- `createSearchFromArea`: `null` when the area has no mapping, otherwise
the priority paired with the search record. -/
def createSearchFromArea (area keyword : Str) : Option (Nat × GifSearch) :=
  match SEARCH_MAPPINGS area with
  | none => none
  | some pc => some (pc.1, { provider := pc.2, keyword := keyword, area := area })

/-- The flat list of `(priority, search)` entries computed by
`computeGifSearches` before grouping: lines parsed, one candidate per
keyword, null entries filtered out. -/
def gifSearchEntries (topicSuggestion : Str) : List (Nat × GifSearch) :=
  (((jsSplit '\n' topicSuggestion).map parseTopicLine).flatMap
    fun al => al.2.map (createSearchFromArea al.1)).filterMap id

/-- JavaScript `Map.set` on an insertion-ordered association list with
`Nat` keys: an existing key keeps its position and gets the new value, a new
key is appended. -/
def mapSet (m : List (Nat × List GifSearch)) (k : Nat) (v : List GifSearch) :
    List (Nat × List GifSearch) :=
  if m.any fun e => e.1 = k then m.map fun e => if e.1 = k then (k, v) else e
  else m ++ [(k, v)]

/-- JavaScript `Map.get`. -/
def mapGet (m : List (Nat × List GifSearch)) (k : Nat) : Option (List GifSearch) :=
  (m.find? fun e => e.1 = k).map fun e => e.2

/-- The `reduce` step of `computeGifSearches`:
`acc.set(priority, [...(acc.get(priority) ?? []), search])`. -/
def groupByPriority (entries : List (Nat × GifSearch)) : List (Nat × List GifSearch) :=
  entries.foldl (fun acc e => mapSet acc e.1 (((mapGet acc e.1).getD []) ++ [e.2])) []

/-- Ascending priority, the comparator of the final sort. -/
def byPriority (a b : Nat × List GifSearch) : Prop := a.1 ≤ b.1

instance : DecidableRel byPriority := fun a b => Nat.decLe a.1 b.1

instance : IsTotal (Nat × List GifSearch) byPriority :=
  ⟨fun a b => Nat.le_total a.1 b.1⟩

instance : IsTrans (Nat × List GifSearch) byPriority :=
  ⟨fun _ _ _ h h2 => le_trans h h2⟩

/-- `computeGifSearches`: group the entries by priority in a `Map`, sort the
`(priority, group)` pairs by ascending priority and concatenate the groups.
The JavaScript `Array.prototype.sort` agrees with insertion sort here because
the grouped keys are distinct. -/
def computeGifSearches (topicSuggestion : Str) : List GifSearch :=
  ((groupByPriority (gifSearchEntries topicSuggestion)).insertionSort byPriority).flatMap
    fun e => e.2

/-- The external request-plus-extraction collaborator of the `getGif` loop:
`axios.get` on the provider's url followed by `processPayload`.  `none`
models a thrown request or payload-shape error (caught inside the loop);
`some urls` is the mapped url list BEFORE the `.filter(Boolean)` step, which
is applied explicitly in the loop model. -/
def FetchFn : Type := Str → Str → Option (List Str)

/-- The loop body of `getGif` over the priority-sorted search list.  Inside a
search with a non-empty (filtered) result list, urls already stored are
collected via `getExistingGifUrls` and the first url not among them is
returned; when every url already exists the FIRST url is returned anyway
(`firstNewGif || gifUrls[0]`; the filtered urls are non-empty strings, so
`find` can only produce a truthy value). -/
def getGifLoop (fetch : FetchFn) (stored : List Str) : List GifSearch → GifResult
  | [] => { url := [], provider := [] }
  | s :: rest =>
    match fetch s.provider s.keyword with
    | none => getGifLoop fetch stored rest
    | some raw =>
      let gifUrls := raw.filter fun u => !u.isEmpty
      if gifUrls.length > 0 then
        let existingUrls := gifUrls.filter fun u => stored.contains u
        match gifUrls.find? fun u => !existingUrls.contains u with
        | some firstNew => { url := firstNew, provider := s.provider }
        | none => { url := gifUrls.headD [], provider := s.provider }
      else getGifLoop fetch stored rest

/-- `getGif(topic)`: compute the priority-sorted searches and run the loop.
`stored` is the set of urls already present in the `gifs` table, the
collaborator behind `getExistingGifUrls`. -/
def getGif (fetch : FetchFn) (stored : List Str) (topic : Str) : GifResult :=
  getGifLoop fetch stored (computeGifSearches topic)

-- sanity checks against the source's documented examples
example : parseTopicLine (str "Brand: Apple, iPhone") = (str "Brand", [str "Apple", str "iPhone"]) := by
  decide
example :
    computeGifSearches (str "Weather: rainy\nBrand: Apple") =
      [{ provider := str "Tenor", keyword := str "Apple", area := str "Brand" },
       { provider := str "Giphy", keyword := str "rainy", area := str "Weather" }] := by
  decide
example :
    getGif (fun _ _ => some [str "u1", str "u2"]) [str "u1"] (str "Brand: x") =
      { url := str "u2", provider := str "Tenor" } := by
  decide

-- ===========================================================
-- C7: priority ordering of computeGifSearches
-- ===========================================================

/-- The priority of a search's area under the fixed mapping (0 for an
unmapped area; every search produced by `createSearchFromArea` carries a
mapped area). -/
def searchPriority (s : GifSearch) : Nat :=
  match SEARCH_MAPPINGS s.area with
  | some pc => pc.1
  | none => 0


theorem createSearchFromArea_eq_some (a k : Str) (e : Nat × GifSearch)
    (h : createSearchFromArea a k = some e) :
    ∃ p pv, SEARCH_MAPPINGS a = some (p, pv) ∧
      e = (p, { provider := pv, keyword := k, area := a }) := by
  unfold createSearchFromArea at h
  cases hm : SEARCH_MAPPINGS a with
  | none => rw [hm] at h; exact absurd h (fun hc => Option.noConfusion hc)
  | some pc =>
    rcases pc with ⟨p0, v0⟩
    rw [hm] at h
    simp only [Option.some.injEq] at h
    exact ⟨p0, v0, rfl, h.symm⟩

theorem gifSearchEntries_priority (topic : Str) :
    ∀ e ∈ gifSearchEntries topic, searchPriority e.2 = e.1 := by
  intro e he
  simp only [gifSearchEntries, List.mem_filterMap, id_eq, List.mem_flatMap,
    List.mem_map, exists_eq_right] at he
  obtain ⟨al, _, k, _, hk⟩ := he
  obtain ⟨p, pv, hm, rfl⟩ := createSearchFromArea_eq_some al.1 k e hk
  simp [searchPriority, hm]

/-- Every group of the priority map holds only searches of its key's
priority. -/
def GroupInv (m : List (Nat × List GifSearch)) : Prop :=
  ∀ e ∈ m, ∀ s ∈ e.2, searchPriority s = e.1

theorem mem_of_mapGet (m : List (Nat × List GifSearch)) (k : Nat)
    (gs : List GifSearch) (h : mapGet m k = some gs) : (k, gs) ∈ m := by
  unfold mapGet at h
  cases hf : m.find? fun e => e.1 = k with
  | none => rw [hf] at h; exact absurd h (fun hc => Option.noConfusion hc)
  | some e0 =>
    rw [hf] at h
    have h2 : e0.2 = gs := Option.some.inj h
    have hk : e0.1 = k := by simpa using List.find?_some hf
    have hm := List.mem_of_find?_eq_some hf
    have : (k, gs) = e0 := by
      rcases e0 with ⟨k0, g0⟩
      simp only at hk h2
      rw [hk, h2]
    rw [this]; exact hm

theorem mem_mapSet (m : List (Nat × List GifSearch)) (k : Nat)
    (v : List GifSearch) (e : Nat × List GifSearch) (he : e ∈ mapSet m k v) :
    e ∈ m ∨ e = (k, v) := by
  unfold mapSet at he
  by_cases h : m.any fun e => e.1 = k
  · rw [if_pos h] at he
    simp only [List.mem_map] at he
    obtain ⟨e0, he0, heq⟩ := he
    by_cases hk : e0.1 = k
    · right; rw [← heq]; simp [hk]
    · left; rw [← heq]; simpa [hk] using he0
  · rw [if_neg h] at he
    rcases List.mem_append.1 he with h1 | h1
    · exact Or.inl h1
    · exact Or.inr (List.mem_singleton.1 h1)

theorem find?_upd_self (k : Nat) (v : List GifSearch) :
    ∀ m : List (Nat × List GifSearch), m.any (fun e => e.1 = k) = true →
      (m.map fun e => if e.1 = k then (k, v) else e).find?
        (fun e => e.1 = k) = some (k, v) := by
  intro m
  induction m with
  | nil => intro h; simp at h
  | cons e0 m ih =>
    intro h
    rw [List.map_cons]
    by_cases hk : e0.1 = k
    · rw [if_pos hk, List.find?_cons_of_pos _ (by simp)]
    · rw [if_neg hk, List.find?_cons_of_neg _ (by simpa using hk)]
      exact ih (by simpa [List.any_cons, hk] using h)

theorem mapGet_mapSet_self (m : List (Nat × List GifSearch)) (k : Nat)
    (v : List GifSearch) : mapGet (mapSet m k v) k = some v := by
  unfold mapSet mapGet
  by_cases h : m.any fun e => e.1 = k
  · rw [if_pos h, find?_upd_self k v m h]
    rfl
  · rw [if_neg h, List.find?_append]
    have hall : m.find? (fun e => decide (e.1 = k)) = none := by
      rw [List.find?_eq_none]
      intro x hx hx2
      exact h (List.any_eq_true.2 ⟨x, hx, hx2⟩)
    rw [hall]
    rw [List.find?_cons_of_pos _ (by simp)]
    rfl

theorem mapGet_mapSet_ne (m : List (Nat × List GifSearch)) (k k2 : Nat)
    (v : List GifSearch) (hne : k2 ≠ k) : mapGet (mapSet m k2 v) k = mapGet m k := by
  unfold mapSet mapGet
  by_cases h : m.any fun e => e.1 = k2
  · rw [if_pos h, List.find?_map]
    have hupd : ((fun e : Nat × List GifSearch => decide (e.1 = k)) ∘
        fun e => if e.1 = k2 then (k2, v) else e) =
        fun e : Nat × List GifSearch => decide (e.1 = k) := by
      funext e
      by_cases hk2 : e.1 = k2
      · simp [hk2, Ne.symm hne]
      · simp [hk2]
    rw [hupd]
    cases hf : m.find? fun e : Nat × List GifSearch => decide (e.1 = k) with
    | none => simp
    | some e =>
      have he : e.1 = k := by simpa using List.find?_some hf
      have hek2 : ¬ e.1 = k2 := fun hc => hne (by rw [← hc, he])
      simp [hek2]
  · rw [if_neg h, List.find?_append]
    have h1 : List.find? (fun e : Nat × List GifSearch => decide (e.1 = k)) [(k2, v)] = none := by
      simp [hne]
    rw [h1]
    cases List.find? (fun e : Nat × List GifSearch => decide (e.1 = k)) m <;> simp

/-- The fold step of `groupByPriority`. -/
def groupStep (acc : List (Nat × List GifSearch)) (e : Nat × GifSearch) :
    List (Nat × List GifSearch) :=
  mapSet acc e.1 (((mapGet acc e.1).getD []) ++ [e.2])

theorem groupByPriority_eq_foldl (entries : List (Nat × GifSearch)) :
    groupByPriority entries = entries.foldl groupStep [] := rfl

theorem groupInv_groupStep (acc : List (Nat × List GifSearch))
    (e : Nat × GifSearch) (hinv : GroupInv acc) (he : searchPriority e.2 = e.1) :
    GroupInv (groupStep acc e) := by
  intro g hg s hs
  rcases mem_mapSet _ _ _ _ hg with hg | hg
  · exact hinv g hg s hs
  · subst hg
    simp only at hs
    rcases List.mem_append.1 hs with hs | hs
    · cases hget : mapGet acc e.1 with
      | none => rw [hget] at hs; simp at hs
      | some gs =>
        rw [hget] at hs
        exact hinv (e.1, gs) (mem_of_mapGet acc e.1 gs hget) s hs
    · rw [List.mem_singleton.1 hs]; exact he

theorem groupInv_foldl (entries : List (Nat × GifSearch))
    (acc : List (Nat × List GifSearch)) (hinv : GroupInv acc)
    (hent : ∀ e ∈ entries, searchPriority e.2 = e.1) :
    GroupInv (entries.foldl groupStep acc) := by
  induction entries generalizing acc with
  | nil => exact hinv
  | cons e es ih =>
    exact ih (groupStep acc e)
      (groupInv_groupStep acc e hinv (hent e (by simp)))
      (fun x hx => hent x (by simp [hx]))

theorem groupInv_groupByPriority (entries : List (Nat × GifSearch))
    (hent : ∀ e ∈ entries, searchPriority e.2 = e.1) :
    GroupInv (groupByPriority entries) :=
  groupInv_foldl entries [] (by intro g hg; simp at hg) hent

/-- `s` sits in the group keyed `k`. -/
def memGroup (m : List (Nat × List GifSearch)) (k : Nat) (s : GifSearch) : Prop :=
  ∃ gs, mapGet m k = some gs ∧ s ∈ gs

theorem memGroup_groupStep (acc : List (Nat × List GifSearch))
    (e : Nat × GifSearch) (k : Nat) (s : GifSearch) (h : memGroup acc k s) :
    memGroup (groupStep acc e) k s := by
  obtain ⟨gs, hget, hs⟩ := h
  by_cases hk : e.1 = k
  · subst hk
    exact ⟨((mapGet acc e.1).getD []) ++ [e.2], mapGet_mapSet_self _ _ _,
      by rw [hget]; exact List.mem_append_left _ hs⟩
  · exact ⟨gs, by rw [groupStep, mapGet_mapSet_ne _ _ _ _ hk]; exact hget, hs⟩

theorem memGroup_groupStep_self (acc : List (Nat × List GifSearch))
    (e : Nat × GifSearch) : memGroup (groupStep acc e) e.1 e.2 :=
  ⟨((mapGet acc e.1).getD []) ++ [e.2], mapGet_mapSet_self _ _ _,
    List.mem_append_right _ (by simp)⟩

theorem memGroup_foldl (entries : List (Nat × GifSearch))
    (acc : List (Nat × List GifSearch)) (k : Nat) (s : GifSearch)
    (h : memGroup acc k s) : memGroup (entries.foldl groupStep acc) k s := by
  induction entries generalizing acc with
  | nil => exact h
  | cons e es ih => exact ih (groupStep acc e) (memGroup_groupStep acc e k s h)

theorem memGroup_of_entry (entries : List (Nat × GifSearch))
    (e : Nat × GifSearch) (he : e ∈ entries) :
    ∀ acc, memGroup (entries.foldl groupStep acc) e.1 e.2 := by
  induction entries with
  | nil => exact absurd he (List.not_mem_nil e)
  | cons e0 es ih =>
    intro acc
    rcases List.mem_cons.1 he with rfl | hmem
    · exact memGroup_foldl es (groupStep acc e) e.1 e.2
        (memGroup_groupStep_self acc e)
    · exact ih hmem (groupStep acc e0)

theorem mem_computeGifSearches_of_entry (topic : Str) (e : Nat × GifSearch)
    (he : e ∈ gifSearchEntries topic) : e.2 ∈ computeGifSearches topic := by
  obtain ⟨gs, hget, hs⟩ := memGroup_of_entry (gifSearchEntries topic) e he []
  have hmem : (e.1, gs) ∈ groupByPriority (gifSearchEntries topic) :=
    mem_of_mapGet _ _ _ hget
  unfold computeGifSearches
  exact List.mem_flatMap.2 ⟨(e.1, gs), (List.mem_insertionSort byPriority).2 hmem, hs⟩

theorem computeGifSearches_sorted (topic : Str) :
    (computeGifSearches topic).Pairwise
      fun s1 s2 => searchPriority s1 ≤ searchPriority s2 := by
  have hinvg : GroupInv (groupByPriority (gifSearchEntries topic)) :=
    groupInv_groupByPriority _ (gifSearchEntries_priority topic)
  have hinv : GroupInv
      ((groupByPriority (gifSearchEntries topic)).insertionSort byPriority) :=
    fun g hg => hinvg g ((List.mem_insertionSort byPriority).1 hg)
  unfold computeGifSearches
  rw [List.pairwise_flatMap]
  constructor
  · intro g hg
    apply List.pairwise_of_forall_mem_list
    intro a ha b hb
    rw [hinv g hg a ha, hinv g hg b hb]
  · have hsorted : List.Sorted byPriority
        ((groupByPriority (gifSearchEntries topic)).insertionSort byPriority) :=
      List.sorted_insertionSort byPriority _
    refine hsorted.imp_of_mem fun {g1 g2} hg1 hg2 hle => ?_
    intro x hx y hy
    rw [hinv g1 hg1 x hx, hinv g2 hg2 y hy]
    exact hle

/-- C7: for every topic string containing a Brand line with at least one
keyword and a Weather line with at least one keyword, the computed search
list contains a Brand search and a Weather search, and no Weather-derived
search ever precedes a Brand-derived one (Brand has priority 1, Weather
priority 9, and searches are emitted in ascending priority order). -/
theorem C7_priority_ordering (topic : Str)
    (hB : ∃ line ∈ jsSplit '\n' topic,
      (parseTopicLine line).1 = str "Brand" ∧ (parseTopicLine line).2 ≠ [])
    (hW : ∃ line ∈ jsSplit '\n' topic,
      (parseTopicLine line).1 = str "Weather" ∧ (parseTopicLine line).2 ≠ []) :
    (∃ s ∈ computeGifSearches topic, s.area = str "Brand") ∧
    (∃ s ∈ computeGifSearches topic, s.area = str "Weather") ∧
    (computeGifSearches topic).Pairwise
      (fun s1 s2 => ¬(s1.area = str "Weather" ∧ s2.area = str "Brand")) := by
  have hentry : ∀ a : Str, ∀ p : Nat, ∀ pv : Str, SEARCH_MAPPINGS a = some (p, pv) →
      (∃ line ∈ jsSplit '\n' topic,
        (parseTopicLine line).1 = a ∧ (parseTopicLine line).2 ≠ []) →
      ∃ s ∈ computeGifSearches topic, s.area = a := by
    rintro a p pv hmap ⟨line, hline, harea, hks⟩
    obtain ⟨k, hk⟩ := List.exists_mem_of_ne_nil _ hks
    have hcs : createSearchFromArea a k =
        some (p, { provider := pv, keyword := k, area := a }) := by
      simp [createSearchFromArea, hmap]
    have hent : (p, { provider := pv, keyword := k, area := a }) ∈
        gifSearchEntries topic := by
      apply List.mem_filterMap.2
      refine ⟨some (p, { provider := pv, keyword := k, area := a }), ?_, rfl⟩
      apply List.mem_flatMap.2
      refine ⟨parseTopicLine line, List.mem_map_of_mem _ hline, ?_⟩
      rw [harea]
      exact List.mem_map.2 ⟨k, hk, hcs⟩
    exact ⟨_, mem_computeGifSearches_of_entry topic _ hent, rfl⟩
  refine ⟨hentry (str "Brand") 1 (str "Tenor") (by decide) hB,
          hentry (str "Weather") 9 (str "Giphy") (by decide) hW, ?_⟩
  apply (computeGifSearches_sorted topic).imp
  intro s1 s2 hle hcon
  obtain ⟨h1, h2⟩ := hcon
  have e1 : searchPriority s1 = 9 := by
    unfold searchPriority
    rw [h1]
    decide
  have e2 : searchPriority s2 = 1 := by
    unfold searchPriority
    rw [h2]
    decide
  omega

/-- Witness for C7: the theorem instantiated on a two-line topic. -/
theorem C7_priority_ordering_witness :
    (∃ s ∈ computeGifSearches (str "Weather: rainy\nBrand: Apple"), s.area = str "Brand") ∧
    (∃ s ∈ computeGifSearches (str "Weather: rainy\nBrand: Apple"), s.area = str "Weather") ∧
    (computeGifSearches (str "Weather: rainy\nBrand: Apple")).Pairwise
      (fun s1 s2 => ¬(s1.area = str "Weather" ∧ s2.area = str "Brand")) :=
  C7_priority_ordering (str "Weather: rainy\nBrand: Apple")
    ⟨str "Brand: Apple", by decide, by decide, by decide⟩
    ⟨str "Weather: rainy", by decide, by decide, by decide⟩

-- ===========================================================
-- C4: corpus-wide image dedup in getGif
-- ===========================================================

/-- The (filtered) url list one search contributes: empty on a request error,
otherwise the extracted urls with falsy (empty) entries removed
(`.filter(Boolean)`). -/
def searchResultUrls (fetch : FetchFn) (s : GifSearch) : List Str :=
  match fetch s.provider s.keyword with
  | none => []
  | some raw => raw.filter fun u => !u.isEmpty

/-- The url `getGif` picks inside one search with a non-empty result list:
the first url not yet stored, or — when every result is already stored — the
FIRST url of the list (`firstNewGif || gifUrls[0]`). -/
def pickGifUrl (stored gifUrls : List Str) : Str :=
  match gifUrls.find? fun u => !stored.contains u with
  | some firstNew => firstNew
  | none => gifUrls.headD []

theorem find?_congr_mem {α : Type} (p q : α → Bool) (l : List α)
    (h : ∀ x ∈ l, p x = q x) : l.find? p = l.find? q := by
  induction l with
  | nil => rfl
  | cons a l ih =>
    have ha := h a (by simp)
    cases hp : p a with
    | true =>
      rw [List.find?_cons_of_pos _ hp, List.find?_cons_of_pos _ (ha ▸ hp)]
    | false =>
      rw [List.find?_cons_of_neg _ (by simp [hp]), List.find?_cons_of_neg _ (by simp [← ha, hp])]
      exact ih fun x hx => h x (by simp [hx])


theorem searchResultUrls_ne_empty (fetch : FetchFn) (s : GifSearch) :
    ∀ u ∈ searchResultUrls fetch s, u ≠ [] := by
  intro u hu
  unfold searchResultUrls at hu
  cases hf : fetch s.provider s.keyword with
  | none => rw [hf] at hu; simp at hu
  | some raw =>
    rw [hf] at hu
    have := (List.mem_filter.1 hu).2
    simpa [List.isEmpty_iff] using this

theorem getGifLoop_characterization (fetch : FetchFn) (stored : List Str)
    (searches : List GifSearch) :
    getGifLoop fetch stored searches =
      match searches.find? fun s => !(searchResultUrls fetch s).isEmpty with
      | none => { url := [], provider := [] }
      | some s =>
        { url := pickGifUrl stored (searchResultUrls fetch s), provider := s.provider } := by
  induction searches with
  | nil => rfl
  | cons s rest ih =>
    cases hf : fetch s.provider s.keyword with
    | none =>
      have hurls : searchResultUrls fetch s = [] := by
        unfold searchResultUrls; rw [hf]
      rw [List.find?_cons_of_neg _ (by simp [hurls])]
      show getGifLoop fetch stored (s :: rest) = _
      simp only [getGifLoop, hf]
      exact ih
    | some raw =>
      have hurls : searchResultUrls fetch s = raw.filter fun u => !u.isEmpty := by
        unfold searchResultUrls; rw [hf]
      by_cases hemp : (raw.filter fun u => !u.isEmpty) = []
      · rw [List.find?_cons_of_neg _ (by simp [hurls, hemp])]
        simp only [getGifLoop, hf, hemp]
        simpa using ih
      · rw [List.find?_cons_of_pos _ (by simp [hurls, hemp])]
        have hlp : (raw.filter fun u => !u.isEmpty).length > 0 :=
          List.length_pos.2 hemp
        have hfind : ((raw.filter fun u => !u.isEmpty).find? fun u =>
            !((raw.filter fun v => !v.isEmpty).filter fun u => stored.contains u).contains u) =
            ((raw.filter fun u => !u.isEmpty).find? fun u => !stored.contains u) := by
          apply find?_congr_mem
          intro x hx
          have hmem2 : ((raw.filter fun v => !v.isEmpty).filter
              fun u => stored.contains u).contains x = stored.contains x := by
            have hxr : x ∈ raw := (List.mem_filter.1 hx).1
            have hxe : ¬x = [] := by
              simpa [List.isEmpty_iff] using (List.mem_filter.1 hx).2
            by_cases hs : x ∈ stored
            · have e1 : ((raw.filter fun v => !v.isEmpty).filter
                  fun u => stored.contains u).contains x = true := by
                simp [hxr, hs, hxe]
              have e2 : stored.contains x = true := by simp [hs]
              rw [e1, e2]
            · have e1 : ((raw.filter fun v => !v.isEmpty).filter
                  fun u => stored.contains u).contains x = false := by simp [hs]
              have e2 : stored.contains x = false := by simp [hs]
              rw [e1, e2]
          rw [hmem2]
        show getGifLoop fetch stored (s :: rest) =
          { url := pickGifUrl stored (searchResultUrls fetch s), provider := s.provider }
        simp only [getGifLoop, hf]
        rw [if_pos hlp, hfind, hurls]
        unfold pickGifUrl
        cases ((raw.filter fun u => !u.isEmpty).find? fun u => !stored.contains u) <;> rfl

/-- The concrete fetch collaborator of the C4 counterexample: every search
returns the single url "u1". -/
def cFetch : FetchFn := fun _ _ => some [str "u1"]

/-- The concrete image store of the C4 counterexample: "u1" already stored. -/
def cStored : List Str := [str "u1"]

/-- C4 counterexample: with topic "Brand: x", a search result consisting only
of the already-stored url "u1", `getGif` returns "u1" — a non-empty url that
IS already present in the image store, instead of moving on to the next
category and eventually returning the empty-url result.  This refutes the
claim that `getGif` returns only URLs not already present. -/
theorem C4_counterexample :
    (getGif cFetch cStored (str "Brand: x")).url = str "u1" ∧
    str "u1" ∈ cStored ∧
    (getGif cFetch cStored (str "Brand: x")).url ≠ [] := by
  refine ⟨by decide, by decide, by decide⟩

/-- C4 amended: `getGif` runs the priority-sorted searches in order and stops
at the FIRST search whose filtered result list is non-empty; within that
search it skips urls already stored and returns the first new one, but when
every url of that search is already stored it returns the search's first url
(an already-stored one) rather than moving on to the next category; the
empty-url result is returned exactly when every search errors or yields no
urls. -/
theorem C4_image_dedup_amended (fetch : FetchFn) (stored : List Str) (topic : Str) :
    (getGif fetch stored topic =
      match (computeGifSearches topic).find? fun s => !(searchResultUrls fetch s).isEmpty with
      | none => { url := [], provider := [] }
      | some s =>
        { url := pickGifUrl stored (searchResultUrls fetch s), provider := s.provider }) ∧
    ((getGif fetch stored topic).url = [] ↔
      ∀ s ∈ computeGifSearches topic, searchResultUrls fetch s = []) := by
  have hchar := getGifLoop_characterization fetch stored (computeGifSearches topic)
  refine ⟨hchar, ?_⟩
  show (getGifLoop fetch stored (computeGifSearches topic)).url = [] ↔ _
  rw [hchar]
  cases hf : (computeGifSearches topic).find? fun s => !(searchResultUrls fetch s).isEmpty with
  | none =>
    simp only [List.find?_eq_none] at hf
    constructor
    · intro _ s hs
      have := hf s hs
      simpa using this
    · intro _; rfl
  | some s =>
    have hpred := List.find?_some hf
    have hmem := List.mem_of_find?_eq_some hf
    have hne : searchResultUrls fetch s ≠ [] := by
      intro hc; rw [hc] at hpred; exact absurd hpred (by simp)
    have hpick : pickGifUrl stored (searchResultUrls fetch s) ≠ [] := by
      unfold pickGifUrl
      cases hfind : (searchResultUrls fetch s).find? fun u => !stored.contains u with
      | some u =>
        show u ≠ []
        exact searchResultUrls_ne_empty fetch s u (List.mem_of_find?_eq_some hfind)
      | none =>
        show (searchResultUrls fetch s).headD [] ≠ []
        rcases hu : searchResultUrls fetch s with _ | ⟨u, us⟩
        · exact absurd hu hne
        · show u ≠ []
          exact searchResultUrls_ne_empty fetch s u (by rw [hu]; simp)
    constructor
    · intro hurl
      exact absurd hurl hpick
    · intro hall
      exact absurd (hall s hmem) hne


-- ===========================================================
-- Enrichment pipeline  (modules/post-enrichment)
-- ===========================================================

/-- The envelope queued per post by `enrichPostsList` (only the fields the
handler reads; all content fields are nullable). -/
structure PostToEnrich where
  id : Str
  title : Option Str
  description : Option Str
  content : Option Str
deriving DecidableEq, Repr

/-- The per-post result produced by `enrichSinglePost`.  The source stores
interests as `{ interestId }` records; only the ids are modelled. -/
structure EnrichmentResult where
  postId : Str
  interests : List Str
  gif : GifResult
deriving DecidableEq, Repr

/-- One database write performed by `saveEnrichmentResult`, in order. -/
inductive DbWrite where
  | createGif (url provider postId : Str) : DbWrite
  | linkPostToInterests (postId : Str) (interestIds : List Str) : DbWrite
  | markPostsAsEnriched (postIds : List Str) : DbWrite
deriving DecidableEq, Repr

/-- `getTopicAndGif`: run the AI topic extraction and then `getGif` on the
returned topic; any thrown error (from the AI call or the GIF lookup) is
caught and yields the empty result.  The AI call is an external collaborator:
`Except.error` models a throw, `Except.ok topic` the returned topic text. -/
def getTopicAndGif (suggestTopicR : Except Unit Str) (fetch : FetchFn)
    (stored : List Str) : GifResult :=
  match suggestTopicR with
  | Except.error _ => { url := [], provider := [] }
  | Except.ok topic => getGif fetch stored topic

/-- `suggestInterestsForPost`: delegate to `suggestInterests` and degrade a
thrown error to the empty interest list.  The whole interest phase is an
external composite here: `Except.error` models a throw anywhere inside it. -/
def suggestInterestsForPost (interestsR : Except Unit (List Str)) : List Str :=
  match interestsR with
  | Except.ok ids => ids
  | Except.error _ => []

/-- `enrichSinglePost`: phase 1 (topic + GIF) is required — an empty gif url
aborts with `none` and nothing else runs; phase 2 (interests) is best-effort. -/
def enrichSinglePost (suggestTopicR : Except Unit Str) (fetch : FetchFn)
    (stored : List Str) (interestsR : Except Unit (List Str))
    (post : PostToEnrich) : Option EnrichmentResult :=
  let gif := getTopicAndGif suggestTopicR fetch stored
  if gif.url.isEmpty then none
  else
    some { postId := post.id, interests := suggestInterestsForPost interestsR,
           gif := gif }

/-- `saveEnrichmentResult`: the ordered writes — gif record (skipped for an
empty url), interest links (skipped when empty), then the `aiChecked` stamp
via `markPostsAsEnriched`, which always runs. -/
def saveEnrichmentResult (result : EnrichmentResult) : List DbWrite :=
  (if !result.gif.url.isEmpty then
    [DbWrite.createGif result.gif.url result.gif.provider result.postId]
   else []) ++
  (if result.interests.length > 0 then
    [DbWrite.linkPostToInterests result.postId result.interests]
   else []) ++
  [DbWrite.markPostsAsEnriched [result.postId]]

/-- The enrichment queue's per-item handler: enrich the post and, when an
enrichment result was produced, persist it; a `none` result (no GIF found)
performs no writes at all. -/
def enrichmentQueueHandler (suggestTopicR : Except Unit Str) (fetch : FetchFn)
    (stored : List Str) (interestsR : Except Unit (List Str))
    (post : PostToEnrich) : List DbWrite :=
  match enrichSinglePost suggestTopicR fetch stored interestsR post with
  | none => []
  | some result => saveEnrichmentResult result

-- ===========================================================
-- C3: enrichment abandonment
-- ===========================================================

/-- C3: whenever the phase-1 topic/GIF step yields an empty gif url (no
matching image, or a topic-extraction/GIF error), the enrichment queue
handler performs no write at all for that post: no image row, no
post-to-interest links, and no `aiChecked` stamp. -/
theorem C3_enrichment_abandonment (suggestTopicR : Except Unit Str)
    (fetch : FetchFn) (stored : List Str) (interestsR : Except Unit (List Str))
    (post : PostToEnrich)
    (h : (getTopicAndGif suggestTopicR fetch stored).url = []) :
    enrichmentQueueHandler suggestTopicR fetch stored interestsR post = [] := by
  simp [enrichmentQueueHandler, enrichSinglePost, h]

/-- Witness for C3: a topic-extraction failure (thrown AI call) leads to zero
writes for the post. -/
theorem C3_enrichment_abandonment_witness :
    enrichmentQueueHandler (Except.error ()) cFetch cStored
      (Except.ok [str "i1"])
      { id := str "p1", title := some (str "t"), description := none,
        content := none } = [] :=
  C3_enrichment_abandonment (Except.error ()) cFetch cStored
    (Except.ok [str "i1"])
    { id := str "p1", title := some (str "t"), description := none,
      content := none } (by decide)

-- ===========================================================
-- C5: interest-phase degradation
-- ===========================================================

/-- C5: when phase 1 succeeded (non-empty gif url) and the interest phase
throws, the error is caught and enrichment still completes with zero
interests: the gif row is written, no interest links are written, and the
`aiChecked` stamp is still set — exactly the two writes, in that order. -/
theorem C5_interest_degradation (suggestTopicR : Except Unit Str)
    (fetch : FetchFn) (stored : List Str) (post : PostToEnrich)
    (h : (getTopicAndGif suggestTopicR fetch stored).url ≠ []) :
    enrichmentQueueHandler suggestTopicR fetch stored (Except.error ()) post =
      [DbWrite.createGif (getTopicAndGif suggestTopicR fetch stored).url
        (getTopicAndGif suggestTopicR fetch stored).provider post.id,
       DbWrite.markPostsAsEnriched [post.id]] := by
  have hne : (getTopicAndGif suggestTopicR fetch stored).url.isEmpty = false := by
    rcases hu : (getTopicAndGif suggestTopicR fetch stored).url with _ | ⟨c, cs⟩
    · exact absurd hu h
    · rfl
  simp [enrichmentQueueHandler, enrichSinglePost, saveEnrichmentResult,
    suggestInterestsForPost, hne]

/-- Witness for C5: a successful GIF lookup combined with a throwing interest
phase yields exactly the gif write and the enriched stamp. -/
theorem C5_interest_degradation_witness :
    enrichmentQueueHandler (Except.ok (str "Brand: x"))
      (fun _ _ => some [str "u9"]) [] (Except.error ())
      { id := str "p2", title := none, description := none, content := none } =
      [DbWrite.createGif (str "u9") (str "Tenor") (str "p2"),
       DbWrite.markPostsAsEnriched [str "p2"]] := by
  have h := C5_interest_degradation (Except.ok (str "Brand: x"))
    (fun _ _ => some [str "u9"]) []
    { id := str "p2", title := none, description := none, content := none }
    (by decide)
  rw [h]
  decide

-- ===========================================================
-- Interest suggestion  (interest.service, services/interestService)
-- ===========================================================

/-- The three fixed interest depth levels (a TS string enum with values
"1", "2", "3"). -/
inductive InterestsDepth where
  | Main : InterestsDepth
  | Sub : InterestsDepth
  | SubSub : InterestsDepth
deriving DecidableEq, Repr

/-- One candidate row offered by `getActiveInterestsByDepth`. -/
structure InterestRow where
  id : Str
  nameEn : Str
deriving DecidableEq, Repr

/-- One observable external call made while suggesting interests: a database
candidate query (`getActiveInterestsByDepth(depth, parentIds?)`) or an AI
text call.  The AI prompt is built by `buildInterestPrompt` from the rendered
candidate list and the user message through a fixed template; the template
wrapper is folded into the oracle, so the call is logged with those two
arguments. -/
inductive InterestCall where
  | dbQuery (depth : InterestsDepth) (parentIds : Option (List Str)) : InterestCall
  | aiCall (interestsList : Str) (userMsg : Str) : InterestCall
deriving DecidableEq, Repr

/-- The interest store collaborator: `getActiveInterestsByDepth(depth,
parentIds?)`. -/
def StoreFn : Type := InterestsDepth → Option (List Str) → List InterestRow

/-- The AI text collaborator for interest selection, taking the rendered
candidate list and the user message and returning `result.text`. -/
def AiFn : Type := Str → Str → Str

/-- JavaScript `Array.prototype.join` with separator `"\n"`. -/
def joinLines : List Str → Str
  | [] => []
  | [l] => l
  | l :: ls => l ++ '\n' :: joinLines ls

/-- The parent filter `getInterestsForDepth` passes to the store:
`depth !== InterestsDepth.Main ? parentIds : undefined`. -/
def parentArgOf (depth : InterestsDepth) (parentIds : List Str) : Option (List Str) :=
  if depth ≠ InterestsDepth.Main then some parentIds else none

/-- `getInterestsForDepth`: a non-top level with no parent ids returns `[]`
at once, with no store query and no AI call; otherwise the store is queried
(returning `[]` when it offers nothing), the candidate list is rendered as
`id: nameEn` lines, the AI is called, and the returned lines are trimmed and
kept only when they match an offered id.  The second component is the log of
external calls made. -/
def getInterestsForDepth (store : StoreFn) (ai : AiFn) (depth : InterestsDepth)
    (parentIds : List Str) (userMsg : Str) : List Str × List InterestCall :=
  if parentIds.isEmpty ∧ depth ≠ InterestsDepth.Main then ([], [])
  else
    let parentArg := parentArgOf depth parentIds
    let dbInterests := store depth parentArg
    if dbInterests.isEmpty then ([], [InterestCall.dbQuery depth parentArg])
    else
      let interestsList :=
        joinLines (dbInterests.map fun i => i.id ++ str ": " ++ i.nameEn)
      let text := ai interestsList userMsg
      let validIds := dbInterests.map fun i => i.id
      let res :=
        if text.isEmpty then []
        else ((jsSplit '\n' (jsTrim text)).map jsTrim).filter
          fun i => validIds.contains i
      (res, [InterestCall.dbQuery depth parentArg,
             InterestCall.aiCall interestsList userMsg])

/-- The user message `suggestInterests` builds:
the trimmed title, description and (truthy) content joined by newlines. -/
def userMsgOf (title description content : Str) : Str :=
  jsTrim title ++ '\n' ::
    (jsTrim description ++ '\n' :: (if content.isEmpty then [] else jsTrim content))

/-- `suggestInterests`: three hierarchical levels — top level with no parent
filter, second level filtered by the top level's validated selections, third
level by the second's — with results and call logs concatenated in order. -/
def suggestInterests (store : StoreFn) (ai : AiFn)
    (title description content : Str) : List Str × List InterestCall :=
  let userMsg := userMsgOf title description content
  let mainRun := getInterestsForDepth store ai InterestsDepth.Main [] userMsg
  let subRun := getInterestsForDepth store ai InterestsDepth.Sub mainRun.1 userMsg
  let subSubRun := getInterestsForDepth store ai InterestsDepth.SubSub subRun.1 userMsg
  (mainRun.1 ++ subRun.1 ++ subSubRun.1, mainRun.2 ++ subRun.2 ++ subSubRun.2)

/-- Whether a call is a store query at the given depth. -/
def isDbQueryAt (d : InterestsDepth) : InterestCall → Bool
  | InterestCall.dbQuery d2 _ => d2 = d
  | _ => false

theorem getInterestsForDepth_log_filter_ne (store : StoreFn) (ai : AiFn)
    (depth : InterestsDepth) (parentIds : List Str) (userMsg : Str)
    (d : InterestsDepth) (hne : d ≠ depth) :
    (getInterestsForDepth store ai depth parentIds userMsg).2.filter
      (isDbQueryAt d) = [] := by
  simp only [getInterestsForDepth]
  split_ifs with h1 h2 h3 <;> simp [isDbQueryAt, Ne.symm hne]

theorem getInterestsForDepth_log_filter_self (store : StoreFn) (ai : AiFn)
    (d : InterestsDepth) (parentIds : List Str) (userMsg : Str)
    (h : ¬(parentIds.isEmpty ∧ d ≠ InterestsDepth.Main)) :
    (getInterestsForDepth store ai d parentIds userMsg).2.filter
      (isDbQueryAt d) = [InterestCall.dbQuery d (parentArgOf d parentIds)] := by
  simp only [getInterestsForDepth]
  rw [if_neg h]
  split_ifs with h2 h3 <;> simp [isDbQueryAt]

theorem getInterestsForDepth_empty_parents (store : StoreFn) (ai : AiFn)
    (depth : InterestsDepth) (userMsg : Str) (h : depth ≠ InterestsDepth.Main) :
    getInterestsForDepth store ai depth [] userMsg = ([], []) := by
  simp [getInterestsForDepth, h]

theorem getInterestsForDepth_validated (store : StoreFn) (ai : AiFn)
    (depth : InterestsDepth) (parentIds : List Str) (userMsg : Str) :
    ∀ i ∈ (getInterestsForDepth store ai depth parentIds userMsg).1,
      i ∈ (store depth (parentArgOf depth parentIds)).map fun r => r.id := by
  intro i hi
  simp only [getInterestsForDepth] at hi
  split_ifs at hi with h1 h2 h3
  · simp at hi
  · simp at hi
  · simp at hi
  · have := (List.mem_filter.1 hi).2
    simpa using this

-- ===========================================================
-- C6: hierarchical filter propagation
-- ===========================================================

/-- C6: in `suggestInterests` the second-level store query carries parent
filter exactly the validated top-level selections (and is skipped entirely
when they are empty), the third-level query exactly the second-level
selections; every non-top level given an empty parent set returns `[]` with
no store query and no AI call; and every level's result ids are among the
ids the store actually offered at that level. -/
theorem C6_hierarchical_filter (store : StoreFn) (ai : AiFn)
    (title description content : Str) :
    ((suggestInterests store ai title description content).2.filter
        (isDbQueryAt InterestsDepth.Sub) =
      (if (getInterestsForDepth store ai InterestsDepth.Main []
            (userMsgOf title description content)).1 = [] then []
       else [InterestCall.dbQuery InterestsDepth.Sub
              (some (getInterestsForDepth store ai InterestsDepth.Main []
                (userMsgOf title description content)).1)])) ∧
    ((suggestInterests store ai title description content).2.filter
        (isDbQueryAt InterestsDepth.SubSub) =
      (if (getInterestsForDepth store ai InterestsDepth.Sub
            (getInterestsForDepth store ai InterestsDepth.Main []
              (userMsgOf title description content)).1
            (userMsgOf title description content)).1 = [] then []
       else [InterestCall.dbQuery InterestsDepth.SubSub
              (some (getInterestsForDepth store ai InterestsDepth.Sub
                (getInterestsForDepth store ai InterestsDepth.Main []
                  (userMsgOf title description content)).1
                (userMsgOf title description content)).1)])) ∧
    (∀ depth : InterestsDepth, ∀ parentIds : List Str, ∀ userMsg : Str,
      parentIds = [] → depth ≠ InterestsDepth.Main →
      getInterestsForDepth store ai depth parentIds userMsg = ([], [])) ∧
    (∀ depth : InterestsDepth, ∀ parentIds : List Str, ∀ userMsg : Str,
      ∀ i ∈ (getInterestsForDepth store ai depth parentIds userMsg).1,
        i ∈ (store depth (parentArgOf depth parentIds)).map fun r => r.id) := by
  refine ⟨?_, ?_, ?_, ?_⟩
  · simp only [suggestInterests, List.filter_append]
    rw [getInterestsForDepth_log_filter_ne store ai InterestsDepth.Main _ _
      InterestsDepth.Sub (by decide)]
    rw [getInterestsForDepth_log_filter_ne store ai InterestsDepth.SubSub _ _
      InterestsDepth.Sub (by decide)]
    by_cases hM : (getInterestsForDepth store ai InterestsDepth.Main []
        (userMsgOf title description content)).1 = []
    · rw [if_pos hM, hM]
      rw [getInterestsForDepth_empty_parents store ai InterestsDepth.Sub _ (by decide)]
      simp
    · rw [if_neg hM]
      rw [getInterestsForDepth_log_filter_self store ai InterestsDepth.Sub _ _
        (by simp [List.isEmpty_iff, hM])]
      simp [parentArgOf]
  · simp only [suggestInterests, List.filter_append]
    rw [getInterestsForDepth_log_filter_ne store ai InterestsDepth.Main _ _
      InterestsDepth.SubSub (by decide)]
    rw [getInterestsForDepth_log_filter_ne store ai InterestsDepth.Sub _ _
      InterestsDepth.SubSub (by decide)]
    by_cases hS : (getInterestsForDepth store ai InterestsDepth.Sub
        (getInterestsForDepth store ai InterestsDepth.Main []
          (userMsgOf title description content)).1
        (userMsgOf title description content)).1 = []
    · rw [if_pos hS, hS]
      rw [getInterestsForDepth_empty_parents store ai InterestsDepth.SubSub _ (by decide)]
      simp
    · rw [if_neg hS]
      rw [getInterestsForDepth_log_filter_self store ai InterestsDepth.SubSub _ _
        (by simp [List.isEmpty_iff, hS])]
      simp [parentArgOf]
  · intro depth parentIds userMsg hp hd
    subst hp
    exact getInterestsForDepth_empty_parents store ai depth userMsg hd
  · intro depth parentIds userMsg
    exact getInterestsForDepth_validated store ai depth parentIds userMsg

/-- A concrete interest store: one top-level candidate "1", one second-level
candidate "2" under parent "1", nothing at the third level. -/
def demoStore : StoreFn := fun depth parentIds =>
  match depth, parentIds with
  | InterestsDepth.Main, none => [{ id := str "1", nameEn := str "Tech" }]
  | InterestsDepth.Sub, some ps =>
    if ps.contains (str "1") then [{ id := str "2", nameEn := str "AI" }] else []
  | _, _ => []

/-- A concrete AI oracle that always answers with the two candidate ids. -/
def demoAi : AiFn := fun _ _ => str "1\n2"

/-- Witness for C6: the theorem applied to the concrete store and AI — the
second-level query is issued with parent filter exactly ["1"]; a non-top
level with no parents is a no-op; results are validated against the offer. -/
theorem C6_hierarchical_filter_witness :
    ((suggestInterests demoStore demoAi (str "t") (str "d") (str "c")).2.filter
        (isDbQueryAt InterestsDepth.Sub) =
      [InterestCall.dbQuery InterestsDepth.Sub (some [str "1"])]) ∧
    getInterestsForDepth demoStore demoAi InterestsDepth.Sub [] (str "m") = ([], []) ∧
    (∀ i ∈ (getInterestsForDepth demoStore demoAi InterestsDepth.Main []
        (str "m")).1, i ∈ [str "1"]) := by
  refine ⟨?_, ?_, ?_⟩
  · have h := (C6_hierarchical_filter demoStore demoAi (str "t") (str "d") (str "c")).1
    rw [h]
    decide
  · exact (C6_hierarchical_filter demoStore demoAi (str "t") (str "d")
      (str "c")).2.2.1 InterestsDepth.Sub [] (str "m") rfl (by decide)
  · intro i hi
    have h := (C6_hierarchical_filter demoStore demoAi (str "t") (str "d")
      (str "c")).2.2.2 InterestsDepth.Main [] (str "m") i hi
    simpa [demoStore, parentArgOf] using h

-- ===========================================================
-- Sync scheduler  (modules/sync/sync.scheduler.ts)
-- ===========================================================

/-- One row of the `connectors` table as read by the scheduler:
`connector_type` and `fetch_period_minutes` are nullable. -/
structure ConnectorRow where
  id : Str
  connectorType : Option Str
  fetchPeriodMinutes : Option Int
  active : Bool
deriving DecidableEq, Repr

/-- Lookup in the in-memory `lastSyncTimes` JavaScript `Map`
(connector id → epoch milliseconds), insertion-ordered. -/
def lookupTime (m : List (Str × Int)) (id : Str) : Option Int :=
  (m.find? fun e => e.1 = id).map fun e => e.2

/-- `lastSyncTimes.set(id, t)`: an existing key keeps its position, a new key
is appended. -/
def setTime (m : List (Str × Int)) (id : Str) (t : Int) : List (Str × Int) :=
  if m.any fun e => e.1 = id then m.map fun e => if e.1 = id then (id, t) else e
  else m ++ [(id, t)]

/-- `(connector.fetchPeriodMinutes || 60) * 60 * 1000`: both null and 0 are
falsy and default to 60 minutes. -/
def fetchPeriodMsOf (c : ConnectorRow) : Int :=
  (match c.fetchPeriodMinutes with
   | none => 60
   | some v => if v = 0 then 60 else v) * 60 * 1000

/-- The observable state of one scheduler tick: the in-memory last-sync map,
the connector ids whose handler's `sync` was invoked (in order), and the
connector ids for which an invalid-type warning was logged. -/
structure TickState where
  lastSyncTimes : List (Str × Int)
  invoked : List Str
  warnings : List Str
deriving DecidableEq, Repr

/-- One iteration of the `schedulerTick` loop for one active connector:
parse the type (warn and skip when unresolvable); skip silently when no
handler is registered for it; skip when a last sync is recorded and the fetch
period has not yet elapsed; otherwise invoke `handler.sync` and, when the
sync succeeds, record the tick's `now` as the connector's last sync time.
`registered` models the registry lookup and `syncOk` whether the dispatched
sync call succeeds or throws. -/
def tickConfig (registered : Str → Bool) (jsonKeys : JsonKeysFn)
    (syncOk : Str → Bool) (now : Int) (st : TickState) (c : ConnectorRow) :
    TickState :=
  match parseConnectorType jsonKeys c.connectorType with
  | none => { st with warnings := st.warnings ++ [c.id] }
  | some t =>
    if registered t then
      let due :=
        match lookupTime st.lastSyncTimes c.id with
        | none => true
        | some lastSync => decide (now - lastSync ≥ fetchPeriodMsOf c)
      if due then
        { st with
          invoked := st.invoked ++ [c.id],
          lastSyncTimes :=
            if syncOk c.id then setTime st.lastSyncTimes c.id now
            else st.lastSyncTimes }
      else st
    else st

/-- `schedulerTick`: an explicit early return in the designated non-production
environments (no side effects at all), otherwise a sequential pass over the
active connectors. -/
def schedulerTick (env : Str) (registered : Str → Bool) (jsonKeys : JsonKeysFn)
    (syncOk : Str → Bool) (now : Int) (connectors : List ConnectorRow)
    (lastSyncTimes : List (Str × Int)) : TickState :=
  if env = str "local" ∨ env = str "development" then
    { lastSyncTimes := lastSyncTimes, invoked := [], warnings := [] }
  else
    (connectors.filter fun c => c.active).foldl
      (tickConfig registered jsonKeys syncOk now)
      { lastSyncTimes := lastSyncTimes, invoked := [], warnings := [] }

/-- The due-check of the claim, evaluated against the tick-start map: the
type resolves to a registered handler, and either no last sync is recorded or
at least the fetch period has elapsed. -/
def dueNow (registered : Str → Bool) (jsonKeys : JsonKeysFn) (now : Int)
    (lastSyncTimes : List (Str × Int)) (c : ConnectorRow) : Bool :=
  match parseConnectorType jsonKeys c.connectorType with
  | none => false
  | some t =>
    registered t &&
    (match lookupTime lastSyncTimes c.id with
     | none => true
     | some lastSync => decide (now - lastSync ≥ fetchPeriodMsOf c))

theorem lookupTime_setTime_ne (m : List (Str × Int)) (id id2 : Str) (t : Int)
    (hne : id2 ≠ id) : lookupTime (setTime m id2 t) id = lookupTime m id := by
  unfold setTime lookupTime
  by_cases h : m.any fun e => e.1 = id2
  · rw [if_pos h, List.find?_map]
    have hupd : ((fun e : Str × Int => decide (e.1 = id)) ∘
        fun e => if e.1 = id2 then (id2, t) else e) =
        fun e : Str × Int => decide (e.1 = id) := by
      funext e
      by_cases hk2 : e.1 = id2
      · simp [hk2, Ne.symm hne]
      · simp [hk2]
    rw [hupd]
    cases hf : m.find? fun e : Str × Int => decide (e.1 = id) with
    | none => simp
    | some e =>
      have he : e.1 = id := by simpa using List.find?_some hf
      have hek2 : ¬ e.1 = id2 := fun hc => hne (by rw [← hc, he])
      simp [hek2]
  · rw [if_neg h, List.find?_append]
    have h1 : List.find? (fun e : Str × Int => decide (e.1 = id)) [(id2, t)] = none := by
      simp [hne]
    rw [h1]
    cases List.find? (fun e : Str × Int => decide (e.1 = id)) m <;> simp

/-- The fold of one tick over a connector list: the invoked ids are exactly
the due connectors' ids and the warned ids exactly the invalid-typed ones,
relative to a reference map the running state agrees with on all remaining
ids (connector ids pairwise distinct). -/
theorem tickRun (registered : Str → Bool) (jsonKeys : JsonKeysFn)
    (syncOk : Str → Bool) (now : Int) (m0 : List (Str × Int)) :
    ∀ cs : List ConnectorRow, ∀ st : TickState,
    (∀ c ∈ cs, lookupTime st.lastSyncTimes c.id = lookupTime m0 c.id) →
    (cs.map fun c => c.id).Nodup →
    (cs.foldl (tickConfig registered jsonKeys syncOk now) st).invoked =
      st.invoked ++
        ((cs.filter (dueNow registered jsonKeys now m0)).map fun c => c.id) ∧
    (cs.foldl (tickConfig registered jsonKeys syncOk now) st).warnings =
      st.warnings ++
        ((cs.filter fun c =>
          (parseConnectorType jsonKeys c.connectorType).isNone).map fun c => c.id) := by
  intro cs
  induction cs with
  | nil => intro st _ _; simp
  | cons c cs ih =>
    intro st hagree hnodup
    have hnodup2 : (cs.map fun c => c.id).Nodup := (List.nodup_cons.1 hnodup).2
    have hidne : ∀ x ∈ cs, x.id ≠ c.id := by
      intro x hx hc
      exact (List.nodup_cons.1 hnodup).1 (List.mem_map.2 ⟨x, hx, hc⟩)
    have hagreec := hagree c (by simp)
    rw [List.foldl_cons]
    cases hp : parseConnectorType jsonKeys c.connectorType with
    | none =>
      have hstep : tickConfig registered jsonKeys syncOk now st c =
          { st with warnings := st.warnings ++ [c.id] } := by
        unfold tickConfig; rw [hp]
      rw [hstep]
      have hdue : dueNow registered jsonKeys now m0 c = false := by
        unfold dueNow; rw [hp]
      obtain ⟨hi, hw⟩ := ih { st with warnings := st.warnings ++ [c.id] }
        (fun x hx => hagree x (by simp [hx])) hnodup2
      refine ⟨by rw [hi]; simp [hdue], by rw [hw]; simp [hp, List.append_assoc]⟩
    | some t =>
      cases hr : registered t with
      | false =>
        have hstep : tickConfig registered jsonKeys syncOk now st c = st := by
          unfold tickConfig; rw [hp]; simp [hr]
        have hdue : dueNow registered jsonKeys now m0 c = false := by
          unfold dueNow; rw [hp]; simp [hr]
        rw [hstep]
        obtain ⟨hi, hw⟩ := ih st (fun x hx => hagree x (by simp [hx])) hnodup2
        refine ⟨by rw [hi]; simp [hdue], by rw [hw]; simp [hp]⟩
      | true =>
        have hdueeq : (match lookupTime st.lastSyncTimes c.id with
            | none => true
            | some lastSync => decide (now - lastSync ≥ fetchPeriodMsOf c)) =
            dueNow registered jsonKeys now m0 c := by
          unfold dueNow
          rw [hp, hagreec]
          simp [hr]
        cases hdue : dueNow registered jsonKeys now m0 c with
        | false =>
          have hstep : tickConfig registered jsonKeys syncOk now st c = st := by
            unfold tickConfig
            rw [hp]
            simp only [hr, if_pos]
            rw [hdueeq, hdue]
            rfl
          rw [hstep]
          obtain ⟨hi, hw⟩ := ih st (fun x hx => hagree x (by simp [hx])) hnodup2
          refine ⟨by rw [hi]; simp [hdue], by rw [hw]; simp [hp]⟩
        | true =>
          have hstep : tickConfig registered jsonKeys syncOk now st c =
              { st with
                invoked := st.invoked ++ [c.id],
                lastSyncTimes :=
                  if syncOk c.id then setTime st.lastSyncTimes c.id now
                  else st.lastSyncTimes } := by
            unfold tickConfig
            rw [hp]
            simp only [hr, if_pos]
            rw [hdueeq, hdue]
            rfl
          rw [hstep]
          have hagree2 : ∀ x ∈ cs,
              lookupTime (if syncOk c.id then setTime st.lastSyncTimes c.id now
                else st.lastSyncTimes) x.id = lookupTime m0 x.id := by
            intro x hx
            cases hok : syncOk c.id with
            | true =>
              rw [if_pos rfl]
              rw [lookupTime_setTime_ne st.lastSyncTimes x.id c.id now
                (Ne.symm (hidne x hx))]
              exact hagree x (by simp [hx])
            | false =>
              rw [if_neg (by simp [hok])]
              exact hagree x (by simp [hx])
          obtain ⟨hi, hw⟩ := ih
            { st with
              invoked := st.invoked ++ [c.id],
              lastSyncTimes :=
                if syncOk c.id then setTime st.lastSyncTimes c.id now
                else st.lastSyncTimes }
            hagree2 hnodup2
          refine ⟨by rw [hi]; simp [hdue, List.append_assoc], by rw [hw]; simp [hp]⟩

-- ===========================================================
-- C8: scheduler due-check
-- ===========================================================

/-- C8: on a tick outside the designated non-production environments, with
pairwise-distinct active connector ids, `handler.sync` is invoked exactly for
the active connectors whose parsed type has a registered handler and that are
due (no recorded in-memory last sync, or at least `fetchPeriodMinutes`
minutes — defaulting to 60 when unset — elapsed since it); membership of a
connector's id in the invocation list is equivalent to its due-check; and an
active connector whose valid type has no registered handler is skipped
silently: neither invoked nor warned about. -/
theorem C8_scheduler_due_check (env : Str) (registered : Str → Bool)
    (jsonKeys : JsonKeysFn) (syncOk : Str → Bool) (now : Int)
    (connectors : List ConnectorRow) (lastSyncTimes : List (Str × Int))
    (henv : env ≠ str "local" ∧ env ≠ str "development")
    (hnodup : ((connectors.filter fun c => c.active).map fun c => c.id).Nodup) :
    ((schedulerTick env registered jsonKeys syncOk now connectors
        lastSyncTimes).invoked =
      ((connectors.filter fun c => c.active).filter
        (dueNow registered jsonKeys now lastSyncTimes)).map fun c => c.id) ∧
    (∀ c ∈ connectors.filter fun c => c.active,
      (c.id ∈ (schedulerTick env registered jsonKeys syncOk now connectors
          lastSyncTimes).invoked ↔
        dueNow registered jsonKeys now lastSyncTimes c = true)) ∧
    (∀ c ∈ connectors.filter fun c => c.active, ∀ t : Str,
      parseConnectorType jsonKeys c.connectorType = some t →
      registered t = false →
      c.id ∉ (schedulerTick env registered jsonKeys syncOk now connectors
        lastSyncTimes).invoked ∧
      c.id ∉ (schedulerTick env registered jsonKeys syncOk now connectors
        lastSyncTimes).warnings) := by
  have hguard : (env = str "local" ∨ env = str "development") = False := by
    simp [henv.1, henv.2]
  have hrun := tickRun registered jsonKeys syncOk now lastSyncTimes
    (connectors.filter fun c => c.active)
    { lastSyncTimes := lastSyncTimes, invoked := [], warnings := [] }
    (fun _ _ => rfl) hnodup
  have hout : schedulerTick env registered jsonKeys syncOk now connectors
      lastSyncTimes =
      (connectors.filter fun c => c.active).foldl
        (tickConfig registered jsonKeys syncOk now)
        { lastSyncTimes := lastSyncTimes, invoked := [], warnings := [] } := by
    unfold schedulerTick
    rw [if_neg (by simp [hguard])]
  have hinv : (schedulerTick env registered jsonKeys syncOk now connectors
      lastSyncTimes).invoked =
      ((connectors.filter fun c => c.active).filter
        (dueNow registered jsonKeys now lastSyncTimes)).map fun c => c.id := by
    rw [hout, hrun.1]
    simp
  have hwarn : (schedulerTick env registered jsonKeys syncOk now connectors
      lastSyncTimes).warnings =
      (((connectors.filter fun c => c.active).filter fun c =>
        (parseConnectorType jsonKeys c.connectorType).isNone).map fun c => c.id) := by
    rw [hout, hrun.2]
    simp
  have hinj := List.inj_on_of_nodup_map hnodup
  refine ⟨hinv, ?_, ?_⟩
  · intro c hc
    rw [hinv]
    constructor
    · intro hmem
      obtain ⟨c2, hc2, hceq⟩ := List.mem_map.1 hmem
      have hc2f := List.mem_filter.1 hc2
      have : c2 = c := hinj hc2f.1 hc hceq
      rw [← this]
      exact hc2f.2
    · intro hdue
      exact List.mem_map_of_mem _ (List.mem_filter.2 ⟨hc, hdue⟩)
  · intro c hc t hp hr
    have hdue : dueNow registered jsonKeys now lastSyncTimes c = false := by
      unfold dueNow; rw [hp]; simp [hr]
    constructor
    · rw [hinv]
      intro hmem
      obtain ⟨c2, hc2, hceq⟩ := List.mem_map.1 hmem
      have hc2f := List.mem_filter.1 hc2
      have : c2 = c := hinj hc2f.1 hc hceq
      rw [this] at hc2f
      rw [hdue] at hc2f
      exact absurd hc2f.2 (by simp)
    · rw [hwarn]
      intro hmem
      obtain ⟨c2, hc2, hceq⟩ := List.mem_map.1 hmem
      have hc2f := List.mem_filter.1 hc2
      have : c2 = c := hinj hc2f.1 hc hceq
      rw [this] at hc2f
      rw [hp] at hc2f
      exact absurd hc2f.2 (by simp)

/-- Concrete scheduler inputs for the C8 witness: two active connectors, one
registered and never synced (due), one recently synced (not due). -/
def demoConnectors : List ConnectorRow :=
  [{ id := str "c1", connectorType := some (str "RssJsonLd"),
     fetchPeriodMinutes := some 60, active := true },
   { id := str "c2", connectorType := some (str "RssJsonLd"),
     fetchPeriodMinutes := some 60, active := true },
   { id := str "c3", connectorType := some (str "spotify"),
     fetchPeriodMinutes := none, active := true }]

/-- Witness for C8: only the never-synced registered connector is invoked;
the connector with an unregistered type is skipped with no warning. -/
theorem C8_scheduler_due_check_witness :
    (schedulerTick (str "production") (fun t => t = str "RssJsonLd")
        (fun _ => none) (fun _ => true) 10000000 demoConnectors
        [(str "c2", 9000000)]).invoked = [str "c1"] ∧
    str "c3" ∉ (schedulerTick (str "production") (fun t => t = str "RssJsonLd")
        (fun _ => none) (fun _ => true) 10000000 demoConnectors
        [(str "c2", 9000000)]).warnings := by
  have h := C8_scheduler_due_check (str "production")
    (fun t => t = str "RssJsonLd") (fun _ => none) (fun _ => true) 10000000
    demoConnectors [(str "c2", 9000000)]
    (by refine ⟨by decide, by decide⟩) (by decide)
  refine ⟨?_, ?_⟩
  · rw [h.1]
    decide
  · exact (h.2.2
      ⟨str "c3", some (str "spotify"), none, true⟩
      (by decide) (str "spotify") (by decide) (by decide)).2

end Gifview
